import Mathlib

/-!
Verification of the normal-inverse-gamma notebook.

The repository consists of one Jupyter notebook with two reusable functions,
a density evaluator norminvgamma_pdf and a sampler norminvgamma_rvs, plus an
inlined closed-form posterior hyperparameter update (Task 3) and a plotting
loop (Task 1).  This file embeds those computations and settles the claims
about them.

Modelling conventions:
* Exact numeric computation on Python floats is idealised as exact rational
  (for the posterior update) or real (for the density functions) arithmetic.
* The numpy value NaN is modelled as the value none of an Option type; the
  IEEE infinities, where they matter (in the sampler scale computation), are
  modelled by the explicit value type FVal below.
* A scipy random draw is modelled by an oracle function supplying, for the
  i-th draw, the underlying standard-distribution sample; scipy itself then
  applies the location-scale transform, which is embedded explicitly.
* A raised Python exception is modelled as Except.error with the message
  scipy raises.
-/

set_option maxHeartbeats 1000000

/-- Arithmetic mean as numpy computes it: np.mean of an empty array is NaN
(modelled as none), otherwise the sum divided by the length. -/
def npMean (data : List ℚ) : Option ℚ :=
  if data.isEmpty then none else some (data.sum / (data.length : ℚ))

/-- Embedding of the Task 3 posterior-update cell of the notebook:
n = len(data); d = np.mean(data);
mu_post = (nu_0*mu_0 + n*d)/(nu_0+n); nu_post = nu_0 + n;
alpha_post = alpha_0 + n/2;
sum accumulated by the loop for i in data: sum += (i - d)**2;
beta_post = beta_0 + 0.5*sum + (n*nu_0)*(d-mu_0)**2 / (2*nu_0+2*n).
NaN (from the empty mean) propagates through every expression that uses d;
the loop accumulator is 0 when the loop body never runs. -/
def posterior_update (mu0 nu0 alpha0 beta0 : ℚ) (data : List ℚ) :
    Option ℚ × ℚ × ℚ × Option ℚ :=
  let n : ℚ := (data.length : ℚ)
  let d : Option ℚ := npMean data
  let mu_post : Option ℚ := d.map fun db => (nu0 * mu0 + n * db) / (nu0 + n)
  let nu_post : ℚ := nu0 + n
  let alpha_post : ℚ := alpha0 + n / 2
  let s : ℚ :=
    match d with
    | none => 0
    | some db => data.foldl (fun acc i => acc + (i - db) ^ 2) 0
  let beta_post : Option ℚ :=
    d.map fun db => beta0 + 0.5 * s + (n * nu0) * (db - mu0) ^ 2 / (2 * nu0 + 2 * n)
  (mu_post, nu_post, alpha_post, beta_post)

/-- The mean written as in the specification formulas. -/
def specMean (data : List ℚ) : ℚ := data.sum / (data.length : ℚ)

/-- Specification formula for the posterior location. -/
def spec_mu_post (mu0 nu0 : ℚ) (data : List ℚ) : ℚ :=
  (nu0 * mu0 + (data.length : ℚ) * specMean data) / (nu0 + (data.length : ℚ))

/-- Specification formula for the posterior precision scale. -/
def spec_nu_post (nu0 : ℚ) (data : List ℚ) : ℚ := nu0 + (data.length : ℚ)

/-- Specification formula for the posterior shape. -/
def spec_alpha_post (alpha0 : ℚ) (data : List ℚ) : ℚ :=
  alpha0 + (data.length : ℚ) / 2

/-- Specification formula for the posterior rate, with the conventional
denominator grouping 2*(nu0 + n) and the centered sum of squares written as
a sum over the data. -/
def spec_beta_post (mu0 nu0 beta0 : ℚ) (data : List ℚ) : ℚ :=
  beta0 + (1 / 2) * ((data.map fun di => (di - specMean data) ^ 2).sum)
    + (data.length : ℚ) * nu0 * (specMean data - mu0) ^ 2
      / (2 * (nu0 + (data.length : ℚ)))

/-- The beta cross term grouped as the code writes it. -/
def beta_cross_code (nu0 n dbar mu0 : ℚ) : ℚ :=
  (n * nu0) * (dbar - mu0) ^ 2 / (2 * nu0 + 2 * n)

/-- The beta cross term grouped as the conventional conjugate-prior table
writes it. -/
def beta_cross_conventional (nu0 n dbar mu0 : ℚ) : ℚ :=
  n * nu0 / (nu0 + n) * (dbar - mu0) ^ 2 / 2

/-- Scipy norm.pdf with location loc and a scale parameter: the standard
normal density evaluated at (x - loc)/scale, divided by scale. -/
noncomputable def norm_pdf (x loc scale : ℝ) : ℝ :=
  Real.exp (-(((x - loc) / scale) ^ 2) / 2) / (scale * Real.sqrt (2 * Real.pi))

/-- Scipy invgamma.pdf with shape a and a scale parameter: zero outside the
support, and scale^a / Gamma a * y^(-a-1) * exp(-scale/y) on the support. -/
noncomputable def invgamma_pdf (y a scale : ℝ) : ℝ :=
  if y ≤ 0 then 0
  else scale ^ a / Real.Gamma a * y ^ (-(a + 1)) * Real.exp (-(scale / y))

/-- The normal density parametrised by its variance v, as the specification
words it. -/
noncomputable def normalDensity (x m v : ℝ) : ℝ :=
  Real.exp (-((x - m) ^ 2) / (2 * v)) / Real.sqrt (2 * Real.pi * v)

/-- The inverse-gamma density with shape a and scale b at a point of the
support, as the specification words it. -/
noncomputable def invgammaDensity (y a b : ℝ) : ℝ :=
  b ^ a / Real.Gamma a * y ^ (-(a + 1)) * Real.exp (-(b / y))

/-- Embedding of norminvgamma_pdf from the notebook:
sts.norm.pdf(x, loc=mu, scale=np.sqrt(sigma2 / nu)) multiplied by
sts.invgamma.pdf(sigma2, a=alpha, scale=beta). -/
noncomputable def norminvgamma_pdf (x sigma2 mu nu alpha beta : ℝ) : ℝ :=
  norm_pdf x mu (Real.sqrt (sigma2 / nu)) * invgamma_pdf sigma2 alpha beta

/-- Square root with the numpy convention on invalid input: the square root
of a negative number is NaN, modelled as none. -/
noncomputable def sqrt_fp (r : ℝ) : Option ℝ :=
  if r < 0 then none else some (Real.sqrt r)

/-- Scipy norm.pdf under the scipy argument check: a NaN scale or a scale
that is not strictly positive makes the result NaN (none). -/
noncomputable def norm_pdf_fp (x loc : ℝ) (scale : Option ℝ) : Option ℝ :=
  match scale with
  | none => none
  | some s => if 0 < s then some (norm_pdf x loc s) else none

/-- Floating-point behaviour of norminvgamma_pdf: a NaN normal factor
multiplied by the finite inverse-gamma factor stays NaN (none). -/
noncomputable def norminvgamma_pdf_fp (x sigma2 mu nu alpha beta : ℝ) : Option ℝ :=
  (norm_pdf_fp x mu (sqrt_fp (sigma2 / nu))).map fun p =>
    p * invgamma_pdf sigma2 alpha beta

/-- Embedding of the Task 1 plotting line sts.norm.pdf(x, i[0][0], i[0][1]):
the sampled variance component i[0][1] is passed directly as the scale
parameter of the normal density. -/
noncomputable def task1_curve (x xi s2 : ℝ) : ℝ := norm_pdf x xi s2

/-- Value of a numpy floating-point computation where NaN and the signed
infinities can arise. -/
inductive FVal where
  | nan : FVal
  | pinf : FVal
  | ninf : FVal
  | fin : ℝ → FVal

/-- Numpy elementwise division of finite floats: division by zero yields a
signed infinity, or NaN for zero over zero; numpy warns but does not
raise. -/
noncomputable def fdiv (x y : ℝ) : FVal :=
  if y = 0 then (if 0 < x then FVal.pinf else if x < 0 then FVal.ninf else FVal.nan)
  else FVal.fin (x / y)

/-- Numpy elementwise square root: NaN on negative input (numpy warns but
does not raise), infinity on infinity. -/
noncomputable def fsqrt : FVal → FVal
  | FVal.nan => FVal.nan
  | FVal.pinf => FVal.pinf
  | FVal.ninf => FVal.nan
  | FVal.fin r => if r < 0 then FVal.nan else FVal.fin (Real.sqrt r)

/-- The scipy rvs argument check on a scale value, scale greater or equal
zero: false for NaN (every comparison with NaN is false) and for negative
values, true for plus infinity. -/
noncomputable def fnonneg : FVal → Bool
  | FVal.nan => false
  | FVal.pinf => true
  | FVal.ninf => false
  | FVal.fin r => decide (0 ≤ r)

/-- Product of a possibly non-finite scale with a finite standard-normal
draw, as in the location-scale transform inside scipy norm.rvs. -/
noncomputable def fmulfin : FVal → ℝ → FVal
  | FVal.nan, _ => FVal.nan
  | FVal.pinf, z => if 0 < z then FVal.pinf else if z < 0 then FVal.ninf else FVal.nan
  | FVal.ninf, z => if 0 < z then FVal.ninf else if z < 0 then FVal.pinf else FVal.nan
  | FVal.fin r, z => FVal.fin (r * z)

/-- Sum of a finite location with a possibly non-finite value. -/
noncomputable def faddfin : ℝ → FVal → FVal
  | _, FVal.nan => FVal.nan
  | _, FVal.pinf => FVal.pinf
  | _, FVal.ninf => FVal.ninf
  | l, FVal.fin r => FVal.fin (l + r)

/-- Embedding of norminvgamma_rvs from the notebook.
The oracle g supplies the i-th draw from the standard inverse-gamma
distribution with shape alpha (such draws are almost surely strictly
positive) and the oracle z supplies the i-th standard normal draw; scipy
itself applies the scale transform sigma2 i = beta * g i in invgamma.rvs
and the location-scale transform x i = mu + scale i * z i in norm.rvs.
Scipy raises ValueError (Domain error in arguments.) in invgamma.rvs
unless alpha > 0 and beta >= 0; numpy refuses a negative size; and scipy
raises the same ValueError in norm.rvs unless every value of
np.sqrt(sigma2 / nu) passes the check scale >= 0, which fails exactly for
NaN and for negative values.  The matrix
np.vstack((x, sigma2)).transpose() has the pair (x i, sigma2 i) as its
i-th row. -/
noncomputable def norminvgamma_rvs (mu nu alpha beta : ℝ) (size : ℤ)
    (g z : ℕ → ℝ) : Except String (List (FVal × ℝ)) :=
  if ¬ (0 < alpha ∧ 0 ≤ beta) then Except.error "Domain error in arguments."
  else if size < 0 then Except.error "negative dimensions are not allowed"
  else
    let n := size.toNat
    let sigma2 : ℕ → ℝ := fun i => beta * g i
    let scale : ℕ → FVal := fun i => fsqrt (fdiv (sigma2 i) nu)
    if ¬ ((List.range n).all fun i => fnonneg (scale i)) then
      Except.error "Domain error in arguments."
    else
      Except.ok ((List.range n).map fun i =>
        (faddfin mu (fmulfin (scale i) (z i)), sigma2 i))

theorem foldl_add_map_sum (f : ℚ → ℚ) (l : List ℚ) (a : ℚ) :
    l.foldl (fun acc i => acc + f i) a = a + (l.map f).sum := by
  induction l generalizing a with
  | nil => simp
  | cons x xs ih => simp [ih, add_assoc]

/-- C1: for every non-empty data sequence and prior hyperparameters with
nu0 positive, the posterior-update computation returns exactly the
closed-form posterior hyperparameters of the specification, with no
approximation or iteration. -/
theorem posterior_update_matches_spec (mu0 nu0 alpha0 beta0 : ℚ) (data : List ℚ)
    (hd : data ≠ []) (hnu : 0 < nu0) :
    posterior_update mu0 nu0 alpha0 beta0 data =
      (some (spec_mu_post mu0 nu0 data), spec_nu_post nu0 data,
        spec_alpha_post alpha0 data, some (spec_beta_post mu0 nu0 beta0 data)) := by
  have hne : data.isEmpty = false := by
    cases data with
    | nil => exact absurd rfl hd
    | cons x xs => rfl
  simp only [posterior_update, npMean, hne, Bool.false_eq_true, if_false,
    Option.map_some']
  refine Prod.ext rfl (Prod.ext rfl (Prod.ext rfl ?_))
  simp only [Option.some.injEq]
  rw [foldl_add_map_sum]
  unfold spec_beta_post specMean
  rw [show 2 * nu0 + 2 * (data.length : ℚ) = 2 * (nu0 + (data.length : ℚ)) from by ring]
  ring

/-- Witness for C1 at data [1] and prior (0, 1, 0, 0). -/
theorem posterior_update_matches_spec_witness :
    ([(1 : ℚ)] ≠ []) ∧ (0 : ℚ) < 1 ∧
      posterior_update 0 1 0 0 [(1 : ℚ)] =
        (some (spec_mu_post 0 1 [(1 : ℚ)]), spec_nu_post 1 [(1 : ℚ)],
          spec_alpha_post 0 [(1 : ℚ)], some (spec_beta_post 0 1 0 [(1 : ℚ)])) :=
  ⟨by decide, by norm_num,
    posterior_update_matches_spec 0 1 0 0 [(1 : ℚ)] (by decide) (by norm_num)⟩

/-- C4: the beta cross term as grouped in the code equals the conventional
grouping, and both equal the form with denominator 2*(nu0 + n). -/
theorem beta_cross_grouping_equiv (nu0 n dbar mu0 : ℚ) (h : nu0 + n ≠ 0) :
    beta_cross_code nu0 n dbar mu0 = beta_cross_conventional nu0 n dbar mu0
      ∧ beta_cross_code nu0 n dbar mu0
          = n * nu0 * (dbar - mu0) ^ 2 / (2 * (nu0 + n)) := by
  unfold beta_cross_code beta_cross_conventional
  rw [show (2 : ℚ) * nu0 + 2 * n = 2 * (nu0 + n) from by ring]
  constructor
  · rw [div_mul_eq_mul_div, div_div, mul_comm (nu0 + n) 2]
  · congr 1

/-- Witness for C4 at nu0 = 1, n = 1, dbar = 2, mu0 = 0. -/
theorem beta_cross_grouping_equiv_witness :
    ((1 : ℚ) + 1 ≠ 0) ∧
      beta_cross_code 1 1 2 0 = beta_cross_conventional 1 1 2 0 ∧
        beta_cross_code 1 1 2 0 = 1 * 1 * ((2 : ℚ) - 0) ^ 2 / (2 * (1 + 1)) :=
  ⟨by norm_num, beta_cross_grouping_equiv 1 1 2 0 (by norm_num)⟩

/-- C5: for the prior (0, 0.054, 1.12, 0.4) and data [1, 2, 3, 4] the
posterior update yields mu_post approximately 2.4667, nu_post = 4.054,
alpha_post = 3.12 and beta_post approximately 3.0665, with the exact
rational values 5000/2027 and 29/10 + 675/4054. -/
theorem posterior_update_worked_example :
    posterior_update 0 0.054 1.12 0.4 [1, 2, 3, 4] =
        (some (5000 / 2027), 4.054, 3.12, some (29 / 10 + 675 / 4054))
      ∧ |(5000 / 2027 : ℚ) - 2.4667| < 1 / 10000
      ∧ |(29 / 10 + 675 / 4054 : ℚ) - 3.0665| < 1 / 10000 := by
  refine ⟨?_, ?_, ?_⟩
  · norm_num [posterior_update, npMean]
  · rw [abs_lt]
    constructor <;> norm_num
  · rw [abs_lt]
    constructor <;> norm_num

/-- C7 counterexample: with empty data the computation does not return the
prior unchanged; numpy gives NaN for the empty mean and it propagates into
mu_post and beta_post. -/
theorem posterior_update_empty_not_prior :
    posterior_update 1 1 1 1 [] ≠ (some 1, 1, 1, some 1) := by decide

/-- C7 amended: with empty data, nu_post and alpha_post equal the prior
values, while mu_post and beta_post are NaN because the mean of the empty
data is NaN; the update is therefore not the identity on the tuple. -/
theorem posterior_update_empty_nan (mu0 nu0 alpha0 beta0 : ℚ) (hnu : 0 < nu0) :
    posterior_update mu0 nu0 alpha0 beta0 [] = (none, nu0, alpha0, none) := by
  simp [posterior_update, npMean]

/-- Witness for the amended C7 at prior (1, 2, 3, 4). -/
theorem posterior_update_empty_nan_witness :
    ((0 : ℚ) < 2) ∧ posterior_update 1 2 3 4 [] = (none, 2, 3, none) :=
  ⟨by norm_num, posterior_update_empty_nan 1 2 3 4 (by norm_num)⟩

theorem norm_pdf_sqrt_eq (x m v : ℝ) (hv : 0 < v) :
    norm_pdf x m (Real.sqrt v) = normalDensity x m v := by
  unfold norm_pdf normalDensity
  have h1 : -(((x - m) / Real.sqrt v) ^ 2) / 2 = -((x - m) ^ 2) / (2 * v) := by
    rw [div_pow, Real.sq_sqrt hv.le]
    ring
  rw [h1, Real.sqrt_mul (by positivity) v,
    mul_comm (Real.sqrt v) (Real.sqrt (2 * Real.pi))]

theorem norm_pdf_nonneg (x m s : ℝ) (hs : 0 ≤ s) : 0 ≤ norm_pdf x m s := by
  unfold norm_pdf
  exact div_nonneg (Real.exp_pos _).le (mul_nonneg hs (Real.sqrt_nonneg _))

theorem invgamma_pdf_nonneg (y a b : ℝ) (ha : 0 < a) (hb : 0 ≤ b) :
    0 ≤ invgamma_pdf y a b := by
  by_cases hy : y ≤ 0
  · simp [invgamma_pdf, hy]
  · push_neg at hy
    rw [invgamma_pdf, if_neg (not_le.mpr hy)]
    have h1 : 0 ≤ b ^ a / Real.Gamma a :=
      div_nonneg (Real.rpow_nonneg hb a) (Real.Gamma_pos_of_pos ha).le
    exact mul_nonneg (mul_nonneg h1 (Real.rpow_nonneg hy.le _)) (Real.exp_pos _).le

theorem invgamma_pdf_support_eq (y a b : ℝ) (hy : 0 < y) :
    invgamma_pdf y a b = invgammaDensity y a b := by
  rw [invgamma_pdf, if_neg (not_le.mpr hy)]
  rfl

/-- C3: for sigma2, nu, alpha, beta positive the density evaluator returns a
non-negative value equal to the product of the normal density at x with mean
mu and variance sigma2/nu and the inverse-gamma density at sigma2 with shape
alpha and scale beta. -/
theorem norminvgamma_pdf_product_nonneg (x sigma2 mu nu alpha beta : ℝ)
    (hs : 0 < sigma2) (hnu : 0 < nu) (ha : 0 < alpha) (hb : 0 < beta) :
    norminvgamma_pdf x sigma2 mu nu alpha beta
        = normalDensity x mu (sigma2 / nu) * invgammaDensity sigma2 alpha beta
      ∧ 0 ≤ norminvgamma_pdf x sigma2 mu nu alpha beta := by
  constructor
  · unfold norminvgamma_pdf
    rw [norm_pdf_sqrt_eq x mu (sigma2 / nu) (div_pos hs hnu),
      invgamma_pdf_support_eq sigma2 alpha beta hs]
  · unfold norminvgamma_pdf
    exact mul_nonneg (norm_pdf_nonneg _ _ _ (Real.sqrt_nonneg _))
      (invgamma_pdf_nonneg _ _ _ ha hb.le)

/-- Witness for C3 at x = 0, sigma2 = 1 and hyperparameters (0, 1, 1, 1). -/
theorem norminvgamma_pdf_product_nonneg_witness :
    ((0 : ℝ) < 1) ∧
      norminvgamma_pdf 0 1 0 1 1 1
          = normalDensity 0 0 (1 / 1) * invgammaDensity 1 1 1 ∧
        0 ≤ norminvgamma_pdf 0 1 0 1 1 1 :=
  ⟨by norm_num, norminvgamma_pdf_product_nonneg 0 1 0 1 1 1 (by norm_num)
    (by norm_num) (by norm_num) (by norm_num)⟩

theorem norminvgamma_pdf_fp_pos (x sigma2 mu nu alpha beta : ℝ)
    (hs : 0 < sigma2) (hnu : 0 < nu) :
    norminvgamma_pdf_fp x sigma2 mu nu alpha beta
      = some (norminvgamma_pdf x sigma2 mu nu alpha beta) := by
  have hv : 0 < sigma2 / nu := div_pos hs hnu
  simp [norminvgamma_pdf_fp, norm_pdf_fp, sqrt_fp, not_lt.mpr hv.le,
    Real.sqrt_pos.mpr hv, norminvgamma_pdf]

/-- C9: for sigma2 not strictly positive and valid remaining
hyperparameters, the density evaluator does not raise a domain error: it
returns the NaN value (none), because the scale passed to the normal factor
is NaN or zero while the inverse-gamma factor is zero. -/
theorem norminvgamma_pdf_fp_nonpositive_nan (x sigma2 mu nu alpha beta : ℝ)
    (hnu : 0 < nu) (ha : 0 < alpha) (hb : 0 < beta) (hs : sigma2 ≤ 0) :
    norminvgamma_pdf_fp x sigma2 mu nu alpha beta = none := by
  rcases lt_or_eq_of_le hs with h | h
  · simp [norminvgamma_pdf_fp, norm_pdf_fp, sqrt_fp, div_neg_of_neg_of_pos h hnu]
  · subst h
    simp [norminvgamma_pdf_fp, norm_pdf_fp, sqrt_fp, Real.sqrt_zero]

/-- Witness for C9 at sigma2 = 0 and hyperparameters (0, 1, 1, 1). -/
theorem norminvgamma_pdf_fp_nonpositive_nan_witness :
    ((0 : ℝ) ≤ 0) ∧ norminvgamma_pdf_fp 0 0 0 1 1 1 = none :=
  ⟨le_refl 0, norminvgamma_pdf_fp_nonpositive_nan 0 0 0 1 1 1 (by norm_num)
    (by norm_num) (by norm_num) (le_refl 0)⟩

/-- C10: the Task 1 plotting code passes the sampled variance component
directly as the scale parameter, so the plotted curve is the density of a
normal distribution with mean xi and variance s2 squared, and in general
not the density with variance s2. -/
theorem task1_curve_variance_squared :
    (∀ x xi s2 : ℝ, 0 < s2 → task1_curve x xi s2 = normalDensity x xi (s2 ^ 2))
      ∧ task1_curve 0 0 2 ≠ normalDensity 0 0 2 := by
  constructor
  · intro x xi s2 hs
    have h := norm_pdf_sqrt_eq x xi (s2 ^ 2) (pow_pos hs 2)
    rw [Real.sqrt_sq hs.le] at h
    exact h
  · have e1 : task1_curve 0 0 2 = 1 / (2 * Real.sqrt (2 * Real.pi)) := by
      unfold task1_curve norm_pdf
      norm_num [Real.exp_zero]
    have e2 : normalDensity 0 0 2 = 1 / Real.sqrt (2 * Real.pi * 2) := by
      unfold normalDensity
      norm_num [Real.exp_zero]
    have e3 : Real.sqrt (2 * Real.pi * 2) = 2 * Real.sqrt Real.pi := by
      rw [show (2 : ℝ) * Real.pi * 2 = 2 ^ 2 * Real.pi from by ring,
        Real.sqrt_mul (by positivity) Real.pi, Real.sqrt_sq (by norm_num)]
    have hlt : Real.sqrt Real.pi < Real.sqrt (2 * Real.pi) :=
      Real.sqrt_lt_sqrt Real.pi_pos.le (by linarith [Real.pi_pos])
    have hppos : 0 < Real.sqrt Real.pi := Real.sqrt_pos.mpr Real.pi_pos
    have hfrac : 1 / (2 * Real.sqrt (2 * Real.pi)) < 1 / (2 * Real.sqrt Real.pi) := by
      apply one_div_lt_one_div_of_lt
      · linarith
      · linarith
    rw [e1, e2, e3]
    exact ne_of_lt hfrac

/-- Witness for C10 at x = 0, xi = 0, s2 = 2. -/
theorem task1_curve_variance_squared_witness :
    ((0 : ℝ) < 2) ∧ task1_curve 0 0 2 = normalDensity 0 0 (2 ^ 2) :=
  ⟨by norm_num, task1_curve_variance_squared.1 0 0 2 (by norm_num)⟩

theorem norminvgamma_rvs_ok (mu nu alpha beta : ℝ) (size : ℤ) (g z : ℕ → ℝ)
    (hnu : 0 < nu) (ha : 0 < alpha) (hb : 0 < beta) (hs : 0 ≤ size)
    (hg : ∀ i, 0 < g i) :
    norminvgamma_rvs mu nu alpha beta size g z =
      Except.ok ((List.range size.toNat).map fun i =>
        (FVal.fin (mu + Real.sqrt (beta * g i / nu) * z i), beta * g i)) := by
  have hscale : ∀ i, fsqrt (fdiv (beta * g i) nu)
      = FVal.fin (Real.sqrt (beta * g i / nu)) := by
    intro i
    have hq : 0 < beta * g i / nu := div_pos (mul_pos hb (hg i)) hnu
    unfold fdiv
    rw [if_neg hnu.ne']
    simp [fsqrt, not_lt.mpr hq.le]
  have hall : ((List.range size.toNat).all fun i =>
      fnonneg (FVal.fin (Real.sqrt (beta * g i / nu)))) = true := by
    rw [List.all_eq_true]
    intro i hi
    simp [fnonneg, Real.sqrt_nonneg]
  unfold norminvgamma_rvs
  rw [if_neg (not_not_intro ⟨ha, hb.le⟩), if_neg (not_lt.mpr hs)]
  simp only [hscale]
  rw [if_neg (not_not_intro hall)]
  simp only [fmulfin, faddfin]

/-- C2: with positive nu, alpha, beta and size at least one, the sampler
returns the ok list of length size whose i-th row pairs the normal sample
mu + sqrt(sigma2 i / nu) * z i, built from the just-drawn variance of the
same index, with that variance sigma2 i = beta * g i, the i-th
inverse-gamma draw, in draw order. -/
theorem norminvgamma_rvs_draw_structure (mu nu alpha beta : ℝ) (size : ℤ)
    (g z : ℕ → ℝ) (hnu : 0 < nu) (ha : 0 < alpha) (hb : 0 < beta)
    (hsize : 1 ≤ size) (hg : ∀ i, 0 < g i) :
    ∃ l : List (FVal × ℝ),
      norminvgamma_rvs mu nu alpha beta size g z = Except.ok l ∧
        l.length = size.toNat ∧
        ∀ i (h : i < l.length),
          l.get ⟨i, h⟩ = (FVal.fin (mu + Real.sqrt (beta * g i / nu) * z i),
            beta * g i) := by
  refine ⟨_, norminvgamma_rvs_ok mu nu alpha beta size g z hnu ha hb
    (by omega) hg, ?_, ?_⟩
  · simp
  · intro i h
    simp only [List.length_map, List.length_range] at h
    simp [List.get_eq_getElem, List.getElem_map, List.getElem_range]

/-- Witness for C2 with all hyperparameters one, size one and constant
oracles. -/
theorem norminvgamma_rvs_draw_structure_witness :
    ((0 : ℝ) < 1) ∧
      ∃ l : List (FVal × ℝ),
        norminvgamma_rvs 0 1 1 1 1 (fun _ => 1) (fun _ => 0) = Except.ok l ∧
          l.length = (1 : ℤ).toNat ∧
          ∀ i (h : i < l.length),
            l.get ⟨i, h⟩ = (FVal.fin (0 + Real.sqrt (1 * 1 / 1) * 0), 1 * 1) :=
  ⟨one_pos, norminvgamma_rvs_draw_structure 0 1 1 1 1 (fun _ => 1) (fun _ => 0)
    one_pos one_pos one_pos (by norm_num) (fun _ => one_pos)⟩

/-- C8: with positive nu, alpha, beta and size at least one, the sampler
returns without error and every sigma2 component of the returned samples
is strictly positive. -/
theorem norminvgamma_rvs_sigma2_pos (mu nu alpha beta : ℝ) (size : ℤ)
    (g z : ℕ → ℝ) (hnu : 0 < nu) (ha : 0 < alpha) (hb : 0 < beta)
    (hsize : 1 ≤ size) (hg : ∀ i, 0 < g i) :
    ∃ l : List (FVal × ℝ),
      norminvgamma_rvs mu nu alpha beta size g z = Except.ok l ∧
        ∀ p ∈ l, 0 < p.2 := by
  refine ⟨_, norminvgamma_rvs_ok mu nu alpha beta size g z hnu ha hb
    (by omega) hg, ?_⟩
  intro p hp
  obtain ⟨i, hi, rfl⟩ := List.mem_map.mp hp
  exact mul_pos hb (hg i)

/-- Witness for C8 with all hyperparameters one, size one and constant
oracles. -/
theorem norminvgamma_rvs_sigma2_pos_witness :
    ((0 : ℝ) < 1) ∧
      ∃ l : List (FVal × ℝ),
        norminvgamma_rvs 0 1 1 1 1 (fun _ => 1) (fun _ => 0) = Except.ok l ∧
          ∀ p ∈ l, 0 < p.2 :=
  ⟨one_pos, norminvgamma_rvs_sigma2_pos 0 1 1 1 1 (fun _ => 1) (fun _ => 0)
    one_pos one_pos one_pos (by norm_num) (fun _ => one_pos)⟩

/-- C6 counterexample: at beta = 0, with mu = 0, nu = 1, alpha = 1 and
size = 1, the sampler does not raise: the scipy check only requires the
scale to be non-negative, so the call returns the sample pair (0, 0). -/
theorem norminvgamma_rvs_beta_zero_no_error :
    norminvgamma_rvs 0 1 1 0 1 (fun _ => 1) (fun _ => 0)
      = Except.ok [(FVal.fin 0, 0)] := by
  simp [norminvgamma_rvs, fdiv, fsqrt, fnonneg, fmulfin, faddfin,
    Real.sqrt_zero, List.range_succ, List.range_zero]

/-- C6 amended: the sampler raises the scipy domain error when alpha is not
positive or beta is negative, raises the numpy negative-dimensions error
when the requested size is negative, and raises the scipy domain error when
nu is negative with positive beta (the computed scale is NaN); but at the
boundary values it does not fail: with beta = 0 (and nu nonzero) it returns
pairs (mu, 0) without error, and with nu = 0 and positive beta it returns
without error while silently producing infinite x values. -/
theorem norminvgamma_rvs_error_behavior :
    (∀ mu nu alpha beta size g z, (alpha ≤ 0 ∨ beta < 0) →
        norminvgamma_rvs mu nu alpha beta size g z
          = Except.error "Domain error in arguments.")
      ∧ (∀ mu nu alpha beta size g z, 0 < alpha → 0 ≤ beta → size < 0 →
          norminvgamma_rvs mu nu alpha beta size g z
            = Except.error "negative dimensions are not allowed")
      ∧ (∀ mu nu alpha beta size g z, 0 < alpha → 0 < beta → nu < 0 →
          1 ≤ size → (∀ i, 0 < g i) →
          norminvgamma_rvs mu nu alpha beta size g z
            = Except.error "Domain error in arguments.")
      ∧ (∀ mu nu alpha size g z, 0 < alpha → nu ≠ 0 → 0 ≤ size →
          norminvgamma_rvs mu nu alpha 0 size g z
            = Except.ok ((List.range size.toNat).map fun _ => (FVal.fin mu, 0)))
      ∧ (∀ mu alpha beta size g z, 0 < alpha → 0 < beta → 0 ≤ size →
          (∀ i, 0 < g i) → (∀ i, 0 < z i) →
          norminvgamma_rvs mu 0 alpha beta size g z
            = Except.ok ((List.range size.toNat).map fun i =>
                (FVal.pinf, beta * g i))) := by
  refine ⟨?_, ?_, ?_, ?_, ?_⟩
  · intro mu nu alpha beta size g z hab
    have hc : ¬ (0 < alpha ∧ 0 ≤ beta) := by
      rcases hab with h | h
      · exact fun hx => absurd hx.1 (not_lt.mpr h)
      · exact fun hx => absurd hx.2 (not_le.mpr h)
    simp [norminvgamma_rvs, hc]
  · intro mu nu alpha beta size g z ha hb hsize
    simp [norminvgamma_rvs, ha, hb, hsize]
  · intro mu nu alpha beta size g z ha hb hnu hsize hg
    have hne : nu ≠ 0 := ne_of_lt hnu
    have hscale : ∀ i, fsqrt (fdiv (beta * g i) nu) = FVal.nan := by
      intro i
      have hq : beta * g i / nu < 0 :=
        div_neg_of_pos_of_neg (mul_pos hb (hg i)) hnu
      unfold fdiv
      rw [if_neg hne]
      simp [fsqrt, hq]
    have h0 : (0 : ℕ) < size.toNat := by omega
    have hcond : ¬ ((List.range size.toNat).all fun i =>
        fnonneg (fsqrt (fdiv (beta * g i) nu))) := by
      rw [List.all_eq_true]
      intro hforall
      have h1 := hforall 0 (List.mem_range.mpr h0)
      rw [hscale 0] at h1
      simp [fnonneg] at h1
    simp [norminvgamma_rvs, ha, hb.le, hcond, show ¬ size < 0 by omega]
  · intro mu nu alpha size g z ha hnu hs
    have hscale0 : fsqrt (fdiv 0 nu) = FVal.fin 0 := by
      unfold fdiv
      rw [if_neg hnu, zero_div]
      simp [fsqrt, Real.sqrt_zero]
    simp [norminvgamma_rvs, ha, show ¬ size < 0 by omega, hscale0, fnonneg,
      fmulfin, faddfin]
  · intro mu alpha beta size g z ha hb hs hg hz
    have hscale : ∀ i, fsqrt (fdiv (beta * g i) 0) = FVal.pinf := by
      intro i
      unfold fdiv
      rw [if_pos rfl, if_pos (mul_pos hb (hg i))]
      simp [fsqrt]
    simp [norminvgamma_rvs, ha, hb.le, show ¬ size < 0 by omega, hscale,
      fnonneg, fmulfin, faddfin, hz]

/-- Witness for the amended C6: at alpha = 0 the call raises the scipy
domain error. -/
theorem norminvgamma_rvs_error_behavior_witness :
    ((0 : ℝ) ≤ 0) ∧
      norminvgamma_rvs 0 1 0 1 1 (fun _ => 1) (fun _ => 0)
        = Except.error "Domain error in arguments." :=
  ⟨le_refl 0, norminvgamma_rvs_error_behavior.1 0 1 0 1 1 (fun _ => 1)
    (fun _ => 0) (Or.inl (le_refl 0))⟩
